import Mathlib

/-!
Shallow embedding of the turn-resolution engine of the supply-chain
management game in `src/components/advanced-scm-game.tsx`.

JavaScript numbers are modelled as rationals (`ℚ`); all arithmetic in the
source stays within small exact decimal fractions, so rational arithmetic
mirrors it.  `Math.round` is JavaScript's round-half-towards-positive-
infinity, modelled by `jsRound`.  Array accesses that would yield
`undefined` (and hence `NaN` arithmetic or a `TypeError`) in JavaScript are
modelled by `Option`: an out-of-range access makes the whole transition
return `none`.  The explicit random draws of the source
(`simulateEnvironmentalEvent`, the lifecycle-advance roll, and the
foreign-exchange jitter) are supplied through a `TurnRand` record so that
the transition function is deterministic in its inputs.
-/

namespace ScmGame

/-- JavaScript `Math.round`: round half towards positive infinity. -/
def jsRound (q : ℚ) : ℤ := ⌊q + 1/2⌋

inductive Lifecycle
  | introduction
  | growth
  | maturity
  | decline
deriving DecidableEq, Repr

inductive Season
  | spring
  | summer
  | autumn
  | winter
deriving DecidableEq, Repr

inductive Country
  | USA
  | Japan
  | EU
  | China
deriving DecidableEq, Repr

structure LifecycleFactors where
  growth : ℚ
  decline : ℚ
deriving DecidableEq, Repr

/-- Table `productLifecycle` of the source (lines 32-37). -/
def productLifecycle : Lifecycle → LifecycleFactors
  | .introduction => ⟨0.1, 0.05⟩
  | .growth => ⟨0.2, 0.1⟩
  | .maturity => ⟨0.05, 0.05⟩
  | .decline => ⟨0, 0.2⟩

/-- Exchange-rate table inside `simulateGlobalMarket` (lines 46-51). -/
def exchangeRates : Country → ℚ
  | .USA => 1
  | .Japan => 110
  | .EU => 0.9
  | .China => 1.3

/-- Transport-cost table inside `simulateGlobalMarket` (lines 52-57). -/
def transportCosts : Country → ℚ
  | .USA => 1
  | .Japan => 1.2
  | .EU => 1.1
  | .China => 1.3

/-- Function `simulateGlobalMarket` of the source (lines 45-59). -/
def simulateGlobalMarket (baselineDemand : ℚ) (country : Country) : ℤ :=
  jsRound (baselineDemand * exchangeRates country * transportCosts country)

structure Supplier where
  id : ℤ
  name : String
  quality : ℚ
  cost : ℚ
  reliability : ℚ
deriving DecidableEq, Repr

/-- Supplier catalog of the source (lines 70-74). -/
def suppliers : List Supplier :=
  [⟨1, "サプライヤーA", 0.9, 1.1, 0.95⟩,
   ⟨2, "サプライヤーB", 0.8, 0.9, 0.9⟩,
   ⟨3, "サプライヤーC", 1, 1.2, 0.98⟩]

structure EnvironmentalEvent where
  name : String
  impact : ℚ
deriving DecidableEq, Repr

structure Player where
  budget : ℚ
  score : ℚ
  productionCapacity : ℚ
  revenue : ℚ
  expenses : ℚ
  holdingCost : ℚ
  stockoutPenalty : ℚ
  orderCost : ℚ
  rdInvestment : ℚ
  facilityInvestment : ℚ
  foreignExchangeGain : ℚ
deriving DecidableEq, Repr

structure Product where
  id : ℤ
  name : String
  inventory : List ℚ
  demandHistory : List ℚ
  orders : List ℚ
  lifecycle : Lifecycle
  supplier : ℤ
deriving DecidableEq, Repr

structure TradeOffer where
  fromIdx : ℕ
  toIdx : ℕ
  amount : ℚ
deriving DecidableEq, Repr

structure GameState where
  turn : ℕ
  currentSeason : Season
  seasonalFactors : Season → ℚ
  products : List Product
  players : List Player
  aiScore : ℚ
  environmentalEvent : Option EnvironmentalEvent
  tradeOffers : List TradeOffer

/-- Function `aiStrategy` of the source (lines 93-114).  The `throw` on a
missing product, the `undefined` slot-0 inventory read of an empty
inventory array and the `TypeError` on `players[0]` of an empty player
list are all modelled as `none`. -/
def aiStrategy (gameState : GameState) (productId : ℤ) (difficulty : ℚ) :
    Option ℤ := do
  let product ← gameState.products.find? (fun p => p.id == productId)
  let lastDemand := (product.demandHistory.getLast?).getD 0
  let averageDemand :=
    if 0 < product.demandHistory.length
    then product.demandHistory.sum / (product.demandHistory.length : ℚ)
    else lastDemand
  let seasonalFactor := gameState.seasonalFactors gameState.currentSeason
  let lifecycleFactor :=
    (productLifecycle product.lifecycle).growth -
      (productLifecycle product.lifecycle).decline
  let forecastDemand := averageDemand * seasonalFactor * (1 + lifecycleFactor)
  let desiredInventory := forecastDemand * (1 + 0.2 * difficulty)
  let inv0 ← product.inventory.get? 0
  let order := max 0 (desiredInventory - inv0)
  let player0 ← gameState.players.get? 0
  let order := min order (min player0.productionCapacity
    ((⌊player0.budget / 10⌋ : ℤ) : ℚ))
  return jsRound order

/-- Explicit record of the random draws one `nextTurn` invocation makes:
the environmental-event roll, the per-product lifecycle-advance roll and
the per-(product, player) foreign-exchange jitter. -/
structure TurnRand where
  envEvent : Option EnvironmentalEvent
  lifecycleAdv : ℕ → Bool
  forex : ℕ → ℕ → ℚ

/-- Country assigned to a player slot (line 338 of the source). -/
def countryFor (index : ℕ) : Country :=
  [Country.USA, Country.Japan, Country.EU, Country.China].getD (index % 4)
    Country.USA

/-- Season selected from the (already incremented) turn counter
(line 328 of the source). -/
def seasonFor (turn : ℕ) : Season :=
  [Season.spring, Season.summer, Season.autumn, Season.winter].getD (turn % 4)
    Season.spring

def lifecycles : List Lifecycle :=
  [.introduction, .growth, .maturity, .decline]

/-- Lifecycle advance of lines 365-367 of the source. -/
def advanceLifecycle (l : Lifecycle) : Lifecycle :=
  lifecycles.getD (min (lifecycles.indexOf l + 1) (lifecycles.length - 1)) l

/-- Demand-factor difference `growth − decline` used at lines 103 and 334
of the source. -/
def lifecycleFactor (l : Lifecycle) : ℚ :=
  (productLifecycle l).growth - (productLifecycle l).decline

/-- Multiplier `1 + impact` of line 335 of the source. -/
def envFactor : Option EnvironmentalEvent → ℚ
  | some e => 1 + e.impact
  | none => 1

/-- Body of the inner `players.forEach` of `nextTurn` (lines 337-361): one
(product, player-slot) resolution step. -/
def processOnePlayer (r : TurnRand) (seasonalFactor lifecycleFactor
    environmentalFactor : ℚ) (pi si : ℕ) (product : Product)
    (player : Player) : Option (Product × Player) := do
  let baselineDemand : ℚ := 20
  let country := countryFor si
  let globalDemand : ℚ := (simulateGlobalMarket baselineDemand country : ℤ)
  let demand : ℚ :=
    (jsRound (globalDemand * seasonalFactor * (1 + lifecycleFactor) *
      environmentalFactor) : ℤ)
  let product := { product with
    demandHistory := product.demandHistory ++ [demand] }
  let supplier ← suppliers.find? (fun s => s.id == product.supplier)
  let inv ← product.inventory.get? si
  let ord ← product.orders.get? si
  let newInventory := max 0 (inv + ord * supplier.reliability - demand)
  let revenue := min demand inv * 20 * supplier.quality
  let holdingCost := newInventory * 0.5
  let stockoutPenalty := max 0 (demand - inv) * 2
  let orderCost := ord * 10 * supplier.cost
  let player := { player with
    budget := min (player.budget - orderCost + revenue) 2000
    revenue := player.revenue + revenue
    expenses := player.expenses + (holdingCost + stockoutPenalty + orderCost)
    holdingCost := player.holdingCost + holdingCost
    stockoutPenalty := player.stockoutPenalty + stockoutPenalty
    orderCost := player.orderCost + orderCost
    score := player.score + (revenue - holdingCost - stockoutPenalty - orderCost)
    foreignExchangeGain := player.foreignExchangeGain + revenue * r.forex pi si }
  let product := { product with
    inventory := product.inventory.set si newInventory
    orders := product.orders.set si 0 }
  return (product, player)

/-- The inner `players.forEach` of `nextTurn` as a whole: resolves one
product against every player slot in order, starting at slot `si`. -/
def playersLoop (r : TurnRand) (sf lf ef : ℚ) (pi : ℕ) :
    ℕ → Product → List Player → Option (Product × List Player)
  | _, product, [] => some (product, [])
  | si, product, player :: rest => do
    let (product', player') ← processOnePlayer r sf lf ef pi si product player
    let (product'', rest') ← playersLoop r sf lf ef pi (si + 1) product' rest
    return (product'', player' :: rest')

/-- AI shadow-outcome block of `nextTurn` (lines 370-378): mirrors the
resolution formulas against slot 0 of the (already updated) product and
adds nothing to any player ledger.  Both direct last-element reads of
lines 372-375 are on the post-update `demandHistory`. -/
def aiShadow (gs : GameState) (product : Product) (difficulty : ℚ) :
    Option ℚ := do
  let aiOrder ← aiStrategy gs product.id difficulty
  let lastDemand ← product.demandHistory.getLast?
  let inv0 ← product.inventory.get? 0
  let aiInventory := max 0 (inv0 + (aiOrder : ℚ) - lastDemand)
  let aiRevenue := min lastDemand inv0 * 20
  let aiHoldingCost := aiInventory * 0.5
  let aiStockoutPenalty := max 0 (lastDemand - inv0) * 2
  let aiOrderCost := (aiOrder : ℚ) * 10
  return aiRevenue - aiHoldingCost - aiStockoutPenalty - aiOrderCost

/-- The outer `products.forEach` of `nextTurn` (lines 331-379): `done` is
the list of already processed products, `pi` the index of the head of the
remaining list.  The `GameState` snapshot handed to `aiStrategy` is the
in-progress state, exactly as the source passes the mutated `newState`. -/
def productsLoop (r : TurnRand) (difficulty : ℚ) (turn : ℕ)
    (currentSeason : Season) (seasonalFactors : Season → ℚ)
    (environmentalEvent : Option EnvironmentalEvent)
    (tradeOffers : List TradeOffer) :
    ℕ → List Product → List Product → List Player → ℚ →
    Option (List Product × List Player × ℚ)
  | _, done, [], players, aiScore => some (done, players, aiScore)
  | pi, done, product :: rest, players, aiScore => do
    let seasonalFactor := seasonalFactors currentSeason
    let lf := lifecycleFactor product.lifecycle
    let environmentalFactor := envFactor environmentalEvent
    let (product', players') ←
      playersLoop r seasonalFactor lf environmentalFactor pi 0 product players
    let product'' :=
      if r.lifecycleAdv pi
      then { product' with lifecycle := advanceLifecycle product'.lifecycle }
      else product'
    let gs : GameState := {
      turn := turn
      currentSeason := currentSeason
      seasonalFactors := seasonalFactors
      products := done ++ product'' :: rest
      players := players'
      aiScore := aiScore
      environmentalEvent := environmentalEvent
      tradeOffers := tradeOffers }
    let aiDelta ← aiShadow gs product'' difficulty
    productsLoop r difficulty turn currentSeason seasonalFactors
      environmentalEvent tradeOffers (pi + 1) (done ++ [product'']) rest
      players' (aiScore + aiDelta)

/-- Long-term investment application of `nextTurn` (lines 382-388). -/
def applyInvestments (player : Player) : Player :=
  { player with
    productionCapacity :=
      player.productionCapacity + ((⌊player.facilityInvestment / 100⌋ : ℤ) : ℚ)
    budget := player.budget - (player.rdInvestment + player.facilityInvestment)
    expenses := player.expenses + (player.rdInvestment + player.facilityInvestment)
    rdInvestment := 0
    facilityInvestment := 0 }

/-- Settlement of one trade offer (lines 392-396).  The payer's budget is
read first; only when the transfer goes through is the recipient slot
accessed, mirroring the source's short-circuit.  Sequential `set`s on the
already updated list reproduce the aliasing when `fromIdx = toIdx`. -/
def settleOffer (players : List Player) (offer : TradeOffer) :
    Option (List Player) := do
  let payer ← players.get? offer.fromIdx
  if offer.amount ≤ payer.budget then do
    let players := players.set offer.fromIdx
      { payer with budget := payer.budget - offer.amount }
    let recipient ← players.get? offer.toIdx
    return players.set offer.toIdx
      { recipient with budget := recipient.budget + offer.amount }
  else
    return players

/-- The `tradeOffers.forEach` of `nextTurn` (lines 391-397): offers are
settled in submission (queue) order. -/
def settleTrades : List Player → List TradeOffer → Option (List Player)
  | players, [] => some players
  | players, offer :: rest => do
    let players' ← settleOffer players offer
    settleTrades players' rest

/-- Function `nextTurn` of the source (lines 324-402), i.e. the spec's
`advanceTurn`: one whole turn resolution. -/
def nextTurn (difficulty : ℚ) (r : TurnRand) (prevState : GameState) :
    Option GameState := do
  let turn := prevState.turn + 1
  let currentSeason := seasonFor turn
  let environmentalEvent := r.envEvent
  let (products, players, aiScore) ←
    productsLoop r difficulty turn currentSeason prevState.seasonalFactors
      environmentalEvent prevState.tradeOffers 0 [] prevState.products
      prevState.players prevState.aiScore
  let players := players.map applyInvestments
  let players ← settleTrades players prevState.tradeOffers
  return { prevState with
    turn := turn
    currentSeason := currentSeason
    environmentalEvent := environmentalEvent
    products := products
    players := players
    aiScore := aiScore
    tradeOffers := [] }

/-- Handler `handleOrderChange` of the source (lines 404-413). -/
def handleOrderChange (playerId : ℕ) (productId : ℤ) (value : ℚ)
    (st : GameState) : GameState :=
  { st with products := st.products.map fun product =>
      if product.id = productId
      then { product with orders := product.orders.mapIdx fun index order =>
          if index = playerId then value else order }
      else product }

/-- Handler `handleInvestmentChange` of the source (lines 415-424). -/
def handleInvestmentChange (playerId : ℕ) (isRd : Bool) (value : ℚ)
    (st : GameState) : GameState :=
  { st with players := st.players.mapIdx fun index player =>
      if index = playerId
      then if isRd
        then { player with rdInvestment := value }
        else { player with facilityInvestment := value }
      else player }

/-- Handler `handleSupplierChange` of the source (lines 426-435); the
`playerId` argument is accepted and ignored, as in the source. -/
def handleSupplierChange (_playerId : ℕ) (productId : ℤ) (supplierId : ℤ)
    (st : GameState) : GameState :=
  { st with products := st.products.map fun product =>
      if product.id = productId
      then { product with supplier := supplierId }
      else product }

/-- Handler `handleTradeOffer` of the source (lines 437-442): queues an
offer with the hardcoded amount 100. -/
def handleTradeOffer (fromIdx toIdx : ℕ) (st : GameState) : GameState :=
  { st with tradeOffers := st.tradeOffers ++ [⟨fromIdx, toIdx, 100⟩] }

/-- Default player record used at session start and when growing the
player list (lines 302 and 464-467 of the source). -/
def defaultPlayer : Player :=
  ⟨1000, 0, 100, 0, 0, 0, 0, 0, 0, 0, 0⟩

/-- Player-count resize effect of the source (lines 455-487). -/
def resizePlayers (playerCount : ℕ) (st : GameState) : GameState :=
  if st.players.length < playerCount then
    let playerDiff := playerCount - st.players.length
    { st with
      players := st.players ++ List.replicate playerDiff defaultPlayer
      products := st.products.map fun product =>
        { product with
          inventory := product.inventory ++ List.replicate playerDiff 50
          orders := product.orders ++ List.replicate playerDiff 0 } }
  else if playerCount < st.players.length then
    { st with
      players := st.players.take playerCount
      products := st.products.map fun product =>
        { product with
          inventory := product.inventory.take playerCount
          orders := product.orders.take playerCount } }
  else st

/-- Seasonal factors of the initial state (line 296 of the source). -/
def initialSeasonalFactors : Season → ℚ
  | .spring => 1
  | .summer => 1.2
  | .autumn => 0.9
  | .winter => 0.7

/-- Initial `GameState` of the source (lines 293-307). -/
def initialGameState : GameState := {
  turn := 1
  currentSeason := .spring
  seasonalFactors := initialSeasonalFactors
  products := [
    ⟨1, "製品A", [50], [], [0], .introduction, 1⟩,
    ⟨2, "製品B", [50], [], [0], .growth, 2⟩]
  players := [defaultPlayer]
  aiScore := 0
  environmentalEvent := none
  tradeOffers := [] }

/-- Realized-demand value of lines 339-340 of the source, for seasonal
factor `sf`, lifecycle factor `lf`, environmental factor `ef` and player
slot `si`. -/
def demandValue (sf lf ef : ℚ) (si : ℕ) : ℚ :=
  ((jsRound (((simulateGlobalMarket 20 (countryFor si) : ℤ) : ℚ) * sf *
    (1 + lf) * ef) : ℤ) : ℚ)

/-- Relation between a player record before and after any number of
per-product resolution steps: the pending investments and the capacity are
untouched, and the score and expense deltas are determined by the
accumulator deltas. -/
def LoopDelta (p q : Player) : Prop :=
  q.rdInvestment = p.rdInvestment ∧
  q.facilityInvestment = p.facilityInvestment ∧
  q.productionCapacity = p.productionCapacity ∧
  q.score - p.score = (q.revenue - p.revenue) - (q.holdingCost - p.holdingCost) -
    (q.stockoutPenalty - p.stockoutPenalty) - (q.orderCost - p.orderCost) ∧
  q.expenses - p.expenses = (q.holdingCost - p.holdingCost) +
    (q.stockoutPenalty - p.stockoutPenalty) + (q.orderCost - p.orderCost)

/-- Trade settlement touches nothing but the budget field. -/
def BudgetOnly (p q : Player) : Prop :=
  q = { p with budget := q.budget }

/-- FinancialLedger contract for one player: the score is the revenue
accumulator minus the cost accumulators, and the expenses are the cost
accumulators plus the investment total `a` applied so far. -/
def LedgerOk (p : Player) (a : ℚ) : Prop :=
  p.score = p.revenue - p.holdingCost - p.stockoutPenalty - p.orderCost ∧
  p.expenses = p.holdingCost + p.stockoutPenalty + p.orderCost + a

/-- Decision commands the UI layer can apply between turns. -/
inductive Cmd
  | orderChange (playerId : ℕ) (productId : ℤ) (value : ℚ)
  | investmentChange (playerId : ℕ) (isRd : Bool) (value : ℚ)
  | supplierChange (playerId : ℕ) (productId supplierId : ℤ)
  | tradeOffer (fromIdx toIdx : ℕ)
  | resize (playerCount : ℕ)

def applyCmd : Cmd → GameState → GameState
  | .orderChange playerId productId value, st =>
      handleOrderChange playerId productId value st
  | .investmentChange playerId isRd value, st =>
      handleInvestmentChange playerId isRd value st
  | .supplierChange playerId productId supplierId, st =>
      handleSupplierChange playerId productId supplierId st
  | .tradeOffer fromIdx toIdx, st => handleTradeOffer fromIdx toIdx st
  | .resize playerCount, st => resizePlayers playerCount st

/-- Ghost accumulator tracking, per player slot, the investments applied
so far: a command changes it only by resizing the player list in
lock-step with `resizePlayers`. -/
def appliedAfterCmd : Cmd → GameState → List ℚ → List ℚ
  | .resize playerCount, st, a =>
      if st.players.length < playerCount
      then a ++ List.replicate (playerCount - st.players.length) 0
      else if playerCount < st.players.length then a.take playerCount else a
  | _, _, a => a

/-- A turn applies each player's pending investments, so the ghost
accumulator grows by `rdInvestment + facilityInvestment` per slot. -/
def appliedAfterTurn (st : GameState) (a : List ℚ) : List ℚ :=
  List.zipWith (fun ai p => ai + p.rdInvestment + p.facilityInvestment) a
    st.players

/-- States reachable from the initial state by decision commands and turn
advances, paired with the ghost per-player applied-investment totals. -/
inductive Reach : GameState → List ℚ → Prop
  | init : Reach initialGameState [0]
  | cmd (c : Cmd) {st : GameState} {a : List ℚ} :
      Reach st a → Reach (applyCmd c st) (appliedAfterCmd c st a)
  | turn (difficulty : ℚ) (r : TurnRand) {st st' : GameState} {a : List ℚ} :
      Reach st a → nextTurn difficulty r st = some st' →
      Reach st' (appliedAfterTurn st a)

/-- Mean of a demand history with an empty default of 0, following the
spec's wording for DemandForecaster; compared against the source's
fallback-to-last-observation formulation. -/
def histMean (l : List ℚ) : ℚ :=
  if l = [] then 0 else l.sum / (l.length : ℚ)

/-- Deterministic random source: no environmental event, no lifecycle
advance, zero foreign-exchange jitter. -/
def r0 : TurnRand := ⟨none, fun _ => false, fun _ _ => 0⟩

/-- One-product, one-player state used to exercise the AI shadow step. -/
def st6 : GameState := { initialGameState with
  products := [⟨1, "製品A", [50], [], [0], .introduction, 1⟩] }

def p2000 : Player := { defaultPlayer with budget := 2000 }

/-- Two-player state with one product and a queued trade offer. -/
def stC2 : GameState := { initialGameState with
  products := [⟨1, "製品A", [50, 50], [], [0, 0], .introduction, 1⟩]
  players := [p2000, p2000]
  tradeOffers := [⟨0, 1, 100⟩] }

/-- State whose only player has a negative budget. -/
def st5 : GameState := { initialGameState with
  players := [{ defaultPlayer with budget := -100 }] }

/-- Three-player state with two chained trade offers: the second offer is
covered only by the proceeds of the first. -/
def st10 : GameState := { initialGameState with
  products := []
  players := [{ defaultPlayer with budget := 100 },
    { defaultPlayer with budget := 0 },
    { defaultPlayer with budget := 0 }]
  tradeOffers := [⟨0, 1, 100⟩, ⟨1, 2, 50⟩] }

/-! ## Characterization of the per-(product, player) resolution step -/

theorem processOnePlayer_spec {r : TurnRand} {sf lf ef : ℚ} {pi si : ℕ}
    {prod prod' : Product} {player player' : Player}
    (h : processOnePlayer r sf lf ef pi si prod player = some (prod', player')) :
    ∃ sup inv ord,
      suppliers.find? (fun s => s.id == prod.supplier) = some sup ∧
      prod.inventory.get? si = some inv ∧
      prod.orders.get? si = some ord ∧
      ∃ demand newInventory revenue holdingCost stockoutPenalty orderCost,
        demand = demandValue sf lf ef si ∧
        newInventory = max 0 (inv + ord * sup.reliability - demand) ∧
        revenue = min demand inv * 20 * sup.quality ∧
        holdingCost = newInventory * 0.5 ∧
        stockoutPenalty = max 0 (demand - inv) * 2 ∧
        orderCost = ord * 10 * sup.cost ∧
        prod'.demandHistory = prod.demandHistory ++ [demand] ∧
        prod'.inventory = prod.inventory.set si newInventory ∧
        prod'.orders = prod.orders.set si 0 ∧
        prod'.id = prod.id ∧
        prod'.name = prod.name ∧
        prod'.lifecycle = prod.lifecycle ∧
        prod'.supplier = prod.supplier ∧
        player'.budget = min (player.budget - orderCost + revenue) 2000 ∧
        player'.revenue = player.revenue + revenue ∧
        player'.expenses = player.expenses +
          (holdingCost + stockoutPenalty + orderCost) ∧
        player'.holdingCost = player.holdingCost + holdingCost ∧
        player'.stockoutPenalty = player.stockoutPenalty + stockoutPenalty ∧
        player'.orderCost = player.orderCost + orderCost ∧
        player'.score = player.score +
          (revenue - holdingCost - stockoutPenalty - orderCost) ∧
        player'.rdInvestment = player.rdInvestment ∧
        player'.facilityInvestment = player.facilityInvestment ∧
        player'.productionCapacity = player.productionCapacity ∧
        player'.foreignExchangeGain = player.foreignExchangeGain +
          revenue * r.forex pi si := by
  simp only [processOnePlayer, Option.bind_eq_bind, Option.bind_eq_some,
    Option.pure_def, Option.some.injEq, Prod.mk.injEq] at h
  obtain ⟨sup, hsup, inv, hinv, ord, hord, hprod, hplayer⟩ := h
  subst hprod hplayer
  exact ⟨sup, inv, ord, hsup, hinv, hord, _, _, _, _, _, _,
    rfl, rfl, rfl, rfl, rfl, rfl, rfl, rfl,
    rfl, rfl, rfl, rfl, rfl, rfl, rfl, rfl,
    rfl, rfl, rfl, rfl, rfl, rfl, rfl, rfl⟩

theorem processOnePlayer_budget_le {r : TurnRand} {sf lf ef : ℚ} {pi si : ℕ}
    {prod prod' : Product} {player player' : Player}
    (h : processOnePlayer r sf lf ef pi si prod player = some (prod', player')) :
    player'.budget ≤ 2000 := by
  obtain ⟨sup, inv, ord, hsup, hinv, hord, d, ni, rev, hc, sp, oc, hd, hni,
    hrev, hhc, hsp, hoc, hdh, hinvA, hordA, hidA, hnameA, hlcA, hsupA, hb,
    hrevP, hexpP, hhcP, hspP, hocP, hscP, hrdP, hfacP, hcapP, hfxP⟩ :=
    processOnePlayer_spec h
  rw [hb]
  exact min_le_right _ _

theorem processOnePlayer_loopDelta {r : TurnRand} {sf lf ef : ℚ} {pi si : ℕ}
    {prod prod' : Product} {player player' : Player}
    (h : processOnePlayer r sf lf ef pi si prod player = some (prod', player')) :
    LoopDelta player player' := by
  obtain ⟨sup, inv, ord, hsup, hinv, hord, d, ni, rev, hc, sp, oc, hd, hni,
    hrev, hhc, hsp, hoc, hdh, hinvA, hordA, hidA, hnameA, hlcA, hsupA, hb,
    hrevP, hexpP, hhcP, hspP, hocP, hscP, hrdP, hfacP, hcapP, hfxP⟩ :=
    processOnePlayer_spec h
  refine ⟨hrdP, hfacP, hcapP, ?_, ?_⟩
  · rw [hscP, hrevP, hhcP, hspP, hocP]; ring
  · rw [hexpP, hhcP, hspP, hocP]; ring

theorem playersLoop_spec {r : TurnRand} {sf lf ef : ℚ} {pi : ℕ}
    {players : List Player} :
    ∀ {si : ℕ} {prod prod' : Product} {players' : List Player},
    playersLoop r sf lf ef pi si prod players = some (prod', players') →
    players'.length = players.length ∧
    prod'.id = prod.id ∧ prod'.lifecycle = prod.lifecycle ∧
    prod'.supplier = prod.supplier ∧
    (∃ tail, prod'.demandHistory = prod.demandHistory ++ tail ∧
      tail.length = players.length) ∧
    (∀ j, j < si ∨ si + players.length ≤ j →
      prod'.inventory.get? j = prod.inventory.get? j ∧
      prod'.orders.get? j = prod.orders.get? j) ∧
    (∀ j, si ≤ j → j < si + players.length →
      ∃ sup inv ord,
        suppliers.find? (fun s => s.id == prod.supplier) = some sup ∧
        prod.inventory.get? j = some inv ∧
        prod.orders.get? j = some ord ∧
        prod'.inventory.get? j =
          some (max 0 (inv + ord * sup.reliability - demandValue sf lf ef j)) ∧
        prod'.orders.get? j = some 0) ∧
    List.Forall₂ (fun p q => LoopDelta p q ∧ q.budget ≤ 2000) players players' := by
  induction players with
  | nil =>
    intro si prod prod' players' h
    simp only [playersLoop, Option.some.injEq, Prod.mk.injEq] at h
    obtain ⟨hp, hpl⟩ := h
    subst hp; subst hpl
    refine ⟨rfl, rfl, rfl, rfl, ⟨[], (List.append_nil _).symm, rfl⟩,
      fun j _ => ⟨rfl, rfl⟩,
      fun j h1 h2 => absurd h2 (by simp only [List.length_nil]; omega),
      List.Forall₂.nil⟩
  | cons player rest ih =>
    intro si prod prod' players' h
    simp only [playersLoop, Option.bind_eq_bind, Option.bind_eq_some,
      Option.pure_def, Option.some.injEq, Prod.mk.injEq] at h
    obtain ⟨⟨prodA, playerA⟩, hstep, ⟨prodB, restB⟩, hrest, hprodEq,
      hplayersEq⟩ := h
    subst hprodEq; subst hplayersEq
    obtain ⟨sup, inv, ord, hsup, hinv, hord, d, ni, rev, hc, sp, oc, hd, hni,
      hrev, hhc, hsp, hoc, hdh, hinvA, hordA, hidA, hnameA, hlcA, hsupA, hb,
      hrevP, hexpP, hhcP, hspP, hocP, hscP, hrdP, hfacP, hcapP, hfxP⟩ :=
      processOnePlayer_spec hstep
    obtain ⟨ihlen, ihid, ihlc, ihsupp, ⟨tail', ihdh, ihtl⟩, ihun, ihpr, ihf₂⟩ :=
      ih hrest
    simp only [List.length_cons]
    refine ⟨by simp [ihlen], ihid.trans hidA, ihlc.trans hlcA,
      ihsupp.trans hsupA, ⟨d :: tail', ?_, by simp [ihtl]⟩, ?_, ?_, ?_⟩
    · rw [ihdh, hdh, List.append_assoc]
      rfl
    · intro j hj
      have hne : si ≠ j := by omega
      have hj' : j < si + 1 ∨ (si + 1) + rest.length ≤ j := by omega
      obtain ⟨hu1, hu2⟩ := ihun j hj'
      constructor
      · rw [hu1, hinvA, List.get?_set_ne _ _ hne]
      · rw [hu2, hordA, List.get?_set_ne _ _ hne]
    · intro j h1 h2
      rcases eq_or_lt_of_le h1 with heq | hlt
      · subst heq
        obtain ⟨hsiInv, -⟩ := List.get?_eq_some.mp hinv
        obtain ⟨hsiOrd, -⟩ := List.get?_eq_some.mp hord
        have h5 : prodA.inventory.get? si = some ni := by
          rw [hinvA]; exact List.get?_set_eq_of_lt ni hsiInv
        have h6 : prodA.orders.get? si = some 0 := by
          rw [hordA]; exact List.get?_set_eq_of_lt 0 hsiOrd
        obtain ⟨hu1, hu2⟩ := ihun si (Or.inl (by omega))
        refine ⟨sup, inv, ord, hsup, hinv, hord, ?_, ?_⟩
        · rw [hu1, h5, hni, hd]
        · rw [hu2, h6]
      · obtain ⟨sup', inv', ord', hsup', hinv', hord', hi'', ho''⟩ :=
          ihpr j (by omega) (by omega)
        rw [hsupA] at hsup'
        rw [hinvA, List.get?_set_ne _ _ (by omega : si ≠ j)] at hinv'
        rw [hordA, List.get?_set_ne _ _ (by omega : si ≠ j)] at hord'
        exact ⟨sup', inv', ord', hsup', hinv', hord', hi'', ho''⟩
    · exact List.forall₂_cons.mpr
        ⟨⟨processOnePlayer_loopDelta hstep, processOnePlayer_budget_le hstep⟩,
          ihf₂⟩

theorem loopDelta_refl (p : Player) : LoopDelta p p :=
  ⟨rfl, rfl, rfl, by ring, by ring⟩

theorem loopDelta_trans {p q s : Player} (h1 : LoopDelta p q)
    (h2 : LoopDelta q s) : LoopDelta p s := by
  obtain ⟨a1, a2, a3, a4, a5⟩ := h1
  obtain ⟨b1, b2, b3, b4, b5⟩ := h2
  exact ⟨b1.trans a1, b2.trans a2, b3.trans a3, by linarith, by linarith⟩

theorem forall₂_loopDelta_refl (l : List Player) : List.Forall₂ LoopDelta l l := by
  induction l with
  | nil => exact List.Forall₂.nil
  | cons p rest ih => exact List.Forall₂.cons (loopDelta_refl p) ih

theorem forall₂_loopDelta_trans : ∀ {l₁ l₂ l₃ : List Player},
    List.Forall₂ LoopDelta l₁ l₂ → List.Forall₂ LoopDelta l₂ l₃ →
    List.Forall₂ LoopDelta l₁ l₃ := by
  intro l₁ l₂ l₃ h1
  induction h1 generalizing l₃ with
  | nil => intro h2; cases h2; exact List.Forall₂.nil
  | cons hpq _ ih =>
    intro h2
    cases h2 with
    | cons hqs htail =>
      exact List.Forall₂.cons (loopDelta_trans hpq hqs) (ih htail)

theorem forall₂_right_mem {α β : Type} {R : α → β → Prop} :
    ∀ {l : List α} {l' : List β}, List.Forall₂ R l l' →
    ∀ q ∈ l', ∃ p ∈ l, R p q := by
  intro l l' h
  induction h with
  | nil => simp
  | cons hr _ ih =>
    intro q hq
    rcases List.mem_cons.mp hq with rfl | hq
    · exact ⟨_, List.mem_cons_self _ _, hr⟩
    · obtain ⟨p, hp, hpq⟩ := ih q hq
      exact ⟨p, List.mem_cons_of_mem _ hp, hpq⟩

theorem productsLoop_spec {r : TurnRand} {d : ℚ} {t : ℕ} {cs : Season}
    {sf : Season → ℚ} {ee : Option EnvironmentalEvent} {tos : List TradeOffer} :
    ∀ {todo : List Product} {pi : ℕ} {done : List Product}
      {players : List Player} {ai : ℚ} {prods : List Product}
      {players' : List Player} {ai' : ℚ},
    productsLoop r d t cs sf ee tos pi done todo players ai =
      some (prods, players', ai') →
    prods.length = done.length + todo.length ∧
    (∀ j, j < done.length → prods.get? j = done.get? j) ∧
    players'.length = players.length ∧
    List.Forall₂ LoopDelta players players' ∧
    (todo = [] → players' = players) ∧
    (todo ≠ [] → ∀ q ∈ players', q.budget ≤ 2000) ∧
    (∀ k product, todo.get? k = some product →
      ∃ playersK players1 prod1,
        playersK.length = players.length ∧
        playersLoop r (sf cs) (lifecycleFactor product.lifecycle)
          (envFactor ee) (pi + k) 0 product playersK = some (prod1, players1) ∧
        prods.get? (done.length + k) =
          some (if r.lifecycleAdv (pi + k)
            then { prod1 with lifecycle := advanceLifecycle prod1.lifecycle }
            else prod1)) := by
  intro todo
  induction todo with
  | nil =>
    intro pi done players ai prods players' ai' h
    simp only [productsLoop, Option.some.injEq, Prod.mk.injEq] at h
    obtain ⟨h1, h2, h3⟩ := h
    subst h1; subst h2; subst h3
    refine ⟨by simp, fun j _ => rfl, rfl, forall₂_loopDelta_refl _,
      fun _ => rfl, fun habs => absurd rfl habs, fun k product hk => ?_⟩
    exact absurd hk (by simp)
  | cons product rest ih =>
    intro pi done players ai prods players' ai' h
    simp only [productsLoop, Option.bind_eq_bind, Option.bind_eq_some] at h
    obtain ⟨⟨prodA, players1⟩, hpl, aiD, hshadow, hrec⟩ := h
    obtain ⟨ihlen, ihdone, ihplen, ihf₂, ihnil, ihbud, ihk⟩ := ih hrec
    obtain ⟨pllen, -, -, -, -, -, -, plf₂⟩ := playersLoop_spec hpl
    have hplen1 : players1.length = players.length := pllen
    refine ⟨?_, ?_, ?_, ?_, ?_, ?_, ?_⟩
    · simp only [List.length_append, List.length_cons, List.length_nil] at ihlen ⊢
      omega
    · intro j hj
      have hj2 : j < done.length + 1 := by omega
      have h9 := ihdone j (by simpa using hj2)
      rw [h9, List.get?_append hj]
    · exact ihplen.trans hplen1
    · exact forall₂_loopDelta_trans
        (plf₂.imp fun p q hpq => hpq.1) ihf₂
    · intro habs; exact absurd habs (by simp)
    · intro _
      rcases List.eq_nil_or_concat rest with hrest | -
      · subst hrest
        have hpe : players' = players1 := ihnil rfl
        subst hpe
        intro q hq
        obtain ⟨p, -, hpq⟩ := forall₂_right_mem plf₂ q hq
        exact hpq.2
      · rcases rest with - | ⟨p2, rest2⟩
        · intro q hq
          have hpe : players' = players1 := ihnil rfl
          subst hpe
          obtain ⟨p, -, hpq⟩ := forall₂_right_mem plf₂ q hq
          exact hpq.2
        · exact ihbud (by simp)
    · intro k prodK hk
      match k, hk with
      | 0, hk =>
        have hk' : product = prodK := by
          simpa using hk
        subst hk'
        refine ⟨players, players1, prodA, rfl, hpl, ?_⟩
        have hlt : done.length < (done ++ [if r.lifecycleAdv pi
            then { prodA with lifecycle := advanceLifecycle prodA.lifecycle }
            else prodA]).length := by
          simp
        have h9 := ihdone done.length (by simp)
        rw [Nat.add_zero, h9, List.get?_concat_length]
        rfl
      | (k' + 1), hk =>
        have hk2 : rest.get? k' = some prodK := by
          simpa using hk
        obtain ⟨playersK, players1K, prod1K, hlenK, hplK, hgetK⟩ :=
          ihk k' prodK hk2
        refine ⟨playersK, players1K, prod1K, hlenK.trans hplen1, ?_, ?_⟩
        · have harith : pi + 1 + k' = pi + (k' + 1) := by omega
          rw [harith] at hplK
          exact hplK
        · have harith : (done ++ [if r.lifecycleAdv pi
              then { prodA with lifecycle := advanceLifecycle prodA.lifecycle }
              else prodA]).length + k' = done.length + (k' + 1) := by
            simp only [List.length_append, List.length_cons, List.length_nil]
            omega
          have harith2 : pi + 1 + k' = pi + (k' + 1) := by omega
          rw [harith, harith2] at hgetK
          exact hgetK

theorem budgetOnly_refl (p : Player) : BudgetOnly p p := rfl

theorem budgetOnly_setBudget {p q : Player} (h : BudgetOnly p q) (z : ℚ) :
    BudgetOnly p { q with budget := z } := by
  unfold BudgetOnly at h ⊢
  rw [h]

theorem budgetOnly_trans {p q s : Player} (h1 : BudgetOnly p q)
    (h2 : BudgetOnly q s) : BudgetOnly p s :=
  h2.trans (congrArg (fun x => { x with budget := s.budget }) h1)

theorem forall₂_budgetOnly_refl (l : List Player) :
    List.Forall₂ BudgetOnly l l := by
  induction l with
  | nil => exact List.Forall₂.nil
  | cons p rest ih => exact List.Forall₂.cons (budgetOnly_refl p) ih

theorem forall₂_trans_of {α : Type} (R : α → α → Prop)
    (htrans : ∀ p q s : α, R p q → R q s → R p s) :
    ∀ {l₁ l₂ l₃ : List α}, List.Forall₂ R l₁ l₂ → List.Forall₂ R l₂ l₃ →
    List.Forall₂ R l₁ l₃ := by
  intro l₁ l₂ l₃ h1
  induction h1 generalizing l₃ with
  | nil => intro h2; cases h2; exact List.Forall₂.nil
  | cons hpq _ ih =>
    intro h2
    cases h2 with
    | cons hqs htail =>
      exact List.Forall₂.cons (htrans _ _ _ hpq hqs) (ih htail)

theorem forall₂_set_right {α β : Type} {R : α → β → Prop} :
    ∀ {l : List α} {l' : List β}, List.Forall₂ R l l' → ∀ {i : ℕ} {x : β},
    (∀ p, l.get? i = some p → R p x) →
    List.Forall₂ R l (l'.set i x) := by
  intro l l' h
  induction h with
  | nil => intro i x _; exact List.Forall₂.nil
  | cons hr htail ih =>
    intro i x hx
    cases i with
    | zero => exact List.Forall₂.cons (hx _ rfl) htail
    | succ i =>
      exact List.Forall₂.cons hr (ih fun p hp => hx p (by simpa using hp))

theorem forall₂_get?_right {α β : Type} {R : α → β → Prop} :
    ∀ {l : List α} {l' : List β}, List.Forall₂ R l l' → ∀ {i : ℕ} {y : β},
    l'.get? i = some y → ∃ p, l.get? i = some p ∧ R p y := by
  intro l l' h
  induction h with
  | nil => intro i y hy; exact absurd hy (by simp)
  | cons hr _ ih =>
    intro i y hy
    cases i with
    | zero =>
      refine ⟨_, rfl, ?_⟩
      obtain rfl : _ = y := by simpa using hy
      exact hr
    | succ i =>
      obtain ⟨p, hp, hpy⟩ := ih (by simpa using hy)
      exact ⟨p, by simpa using hp, hpy⟩

theorem settleOffer_budgetOnly {players players' : List Player}
    {offer : TradeOffer} (h : settleOffer players offer = some players') :
    List.Forall₂ BudgetOnly players players' := by
  simp only [settleOffer, Option.bind_eq_bind, Option.bind_eq_some,
    Option.pure_def, Option.some.injEq] at h
  obtain ⟨payer, hpayer, h2⟩ := h
  by_cases hc : offer.amount ≤ payer.budget
  · rw [if_pos hc] at h2
    simp only [Option.bind_eq_bind, Option.bind_eq_some, Option.pure_def,
      Option.some.injEq] at h2
    obtain ⟨recipient, hrec, hset⟩ := h2
    subst hset
    have h3 : List.Forall₂ BudgetOnly players
        (players.set offer.fromIdx
          { payer with budget := payer.budget - offer.amount }) := by
      refine forall₂_set_right (forall₂_budgetOnly_refl players) ?_
      intro p hp
      rw [hpayer] at hp
      have hpp : payer = p := by simpa using hp
      rw [← hpp]
      exact budgetOnly_setBudget (budgetOnly_refl payer) _
    obtain ⟨p, hpGet, hpRec⟩ := forall₂_get?_right h3 hrec
    refine forall₂_set_right h3 ?_
    intro p' hp'
    rw [hpGet] at hp'
    have hpp : p = p' := by simpa using hp'
    rw [← hpp]
    exact budgetOnly_setBudget hpRec _
  · rw [if_neg hc] at h2
    obtain rfl : players = players' := by simpa using h2
    exact forall₂_budgetOnly_refl players

theorem settleTrades_budgetOnly : ∀ {offers : List TradeOffer}
    {players players' : List Player},
    settleTrades players offers = some players' →
    List.Forall₂ BudgetOnly players players' := by
  intro offers
  induction offers with
  | nil =>
    intro players players' h
    obtain rfl : players = players' := by
      simpa [settleTrades] using h
    exact forall₂_budgetOnly_refl players
  | cons offer rest ih =>
    intro players players' h
    simp only [settleTrades, Option.bind_eq_bind, Option.bind_eq_some] at h
    obtain ⟨playersA, hA, hrest⟩ := h
    exact forall₂_trans_of BudgetOnly
      (fun _ _ _ h1 h2 => budgetOnly_trans h1 h2)
      (settleOffer_budgetOnly hA) (ih hrest)

theorem nextTurn_spec {d : ℚ} {r : TurnRand} {st st' : GameState}
    (h : nextTurn d r st = some st') :
    ∃ prods players1 ai players2,
      productsLoop r d (st.turn + 1) (seasonFor (st.turn + 1))
        st.seasonalFactors r.envEvent st.tradeOffers 0 [] st.products
        st.players st.aiScore = some (prods, players1, ai) ∧
      settleTrades (players1.map applyInvestments) st.tradeOffers =
        some players2 ∧
      st'.turn = st.turn + 1 ∧
      st'.currentSeason = seasonFor (st.turn + 1) ∧
      st'.seasonalFactors = st.seasonalFactors ∧
      st'.products = prods ∧
      st'.players = players2 ∧
      st'.aiScore = ai ∧
      st'.environmentalEvent = r.envEvent ∧
      st'.tradeOffers = [] := by
  simp only [nextTurn, Option.bind_eq_bind, Option.bind_eq_some,
    Option.pure_def, Option.some.injEq] at h
  obtain ⟨⟨prods, players1, ai⟩, hloop, players2, htr, hst⟩ := h
  subst hst
  exact ⟨prods, players1, ai, players2, hloop, htr, rfl, rfl, rfl, rfl, rfl,
    rfl, rfl, rfl⟩

theorem nextTurn_product_spec {d : ℚ} {r : TurnRand} {st st' : GameState}
    (h : nextTurn d r st = some st') {pi : ℕ} {product : Product}
    (hp : st.products.get? pi = some product) :
    ∃ product',
      st'.products.get? pi = some product' ∧
      (∃ tail, product'.demandHistory = product.demandHistory ++ tail ∧
        tail.length = st.players.length) ∧
      (∀ si, si < st.players.length →
        ∃ sup inv ord,
          suppliers.find? (fun s => s.id == product.supplier) = some sup ∧
          product.inventory.get? si = some inv ∧
          product.orders.get? si = some ord ∧
          product'.inventory.get? si =
            some (max 0 (inv + ord * sup.reliability -
              demandValue (st.seasonalFactors (seasonFor (st.turn + 1)))
                (lifecycleFactor product.lifecycle) (envFactor r.envEvent) si)) ∧
          product'.orders.get? si = some 0) := by
  obtain ⟨prods, players1, ai, players2, hloop, htr, -, -, -, hprod, -, -, -, -⟩ :=
    nextTurn_spec h
  obtain ⟨-, -, -, -, -, -, ihk⟩ := productsLoop_spec hloop
  obtain ⟨playersK, players1K, prod1, hlenK, hplK, hget⟩ := ihk pi product hp
  obtain ⟨-, -, -, -, ⟨tail, hdh, htl⟩, -, hproc, -⟩ := playersLoop_spec hplK
  have hfields : ∃ pf, st'.products.get? pi = some pf ∧
      pf.demandHistory = prod1.demandHistory ∧
      pf.inventory = prod1.inventory ∧ pf.orders = prod1.orders := by
    rw [hprod]
    cases hb : r.lifecycleAdv (0 + pi) with
    | false =>
      rw [hb, if_neg (by simp)] at hget
      exact ⟨prod1, by simpa using hget, rfl, rfl, rfl⟩
    | true =>
      rw [hb, if_pos rfl] at hget
      exact ⟨{ prod1 with lifecycle := advanceLifecycle prod1.lifecycle },
        by simpa using hget, rfl, rfl, rfl⟩
  obtain ⟨pf, hpf, hfdh, hfinv, hford⟩ := hfields
  refine ⟨pf, hpf, ⟨tail, ?_, htl.trans hlenK⟩, ?_⟩
  · rw [hfdh, hdh]
  · intro si hsi
    obtain ⟨sup, inv, ord, hsup, hinv, hord, hinv', hord'⟩ :=
      hproc si (by omega) (by omega)
    refine ⟨sup, inv, ord, hsup, hinv, hord, ?_, ?_⟩
    · rw [hfinv]; exact hinv'
    · rw [hford]; exact hord'

/-! ## Claim theorems -/

/-- C1: one invocation of `advanceTurn` (`nextTurn`) updates every
(product, player-slot) pair by the spec's step formulas.  The first
conjunct is end-to-end: in the returned state the slot's inventory equals
`max 0 (pre-turn inventory + pending order × supplier.reliability −
realized demand)` and the slot's pending order is 0, where the realized
demand is `demandValue` of the new season's factor, the product's pre-turn
lifecycle factor and the environmental factor.  The second conjunct
characterizes the ledger update of the single resolution step the turn
applies to each pair: `budget = min (budget − orderCost + revenue) 2000`
with `revenue = min demand inv × 20 × quality`,
`holdingCost = newInventory × 0.5`,
`stockoutPenalty = max 0 (demand − inv) × 2` and
`orderCost = order × 10 × cost`. -/
theorem C1_step_formulas (d : ℚ) (r : TurnRand) (st st' : GameState)
    (h : nextTurn d r st = some st') (pi si : ℕ) (product : Product)
    (hp : st.products.get? pi = some product)
    (hsi : si < st.players.length) :
    (∃ sup inv ord product',
      suppliers.find? (fun s => s.id == product.supplier) = some sup ∧
      product.inventory.get? si = some inv ∧
      product.orders.get? si = some ord ∧
      st'.products.get? pi = some product' ∧
      product'.inventory.get? si =
        some (max 0 (inv + ord * sup.reliability -
          demandValue (st.seasonalFactors (seasonFor (st.turn + 1)))
            (lifecycleFactor product.lifecycle) (envFactor r.envEvent) si)) ∧
      product'.orders.get? si = some 0) ∧
    (∀ (r2 : TurnRand) (sf lf ef : ℚ) (pj sj : ℕ) (prod1 prod2 : Product)
      (player player' : Player) (sup : Supplier) (inv ord : ℚ),
      processOnePlayer r2 sf lf ef pj sj prod1 player = some (prod2, player') →
      suppliers.find? (fun s => s.id == prod1.supplier) = some sup →
      prod1.inventory.get? sj = some inv →
      prod1.orders.get? sj = some ord →
      player'.budget = min (player.budget - ord * 10 * sup.cost +
        min (demandValue sf lf ef sj) inv * 20 * sup.quality) 2000 ∧
      player'.revenue = player.revenue +
        min (demandValue sf lf ef sj) inv * 20 * sup.quality ∧
      player'.holdingCost = player.holdingCost +
        max 0 (inv + ord * sup.reliability - demandValue sf lf ef sj) * 0.5 ∧
      player'.stockoutPenalty = player.stockoutPenalty +
        max 0 (demandValue sf lf ef sj - inv) * 2 ∧
      player'.orderCost = player.orderCost + ord * 10 * sup.cost ∧
      prod2.inventory.get? sj =
        some (max 0 (inv + ord * sup.reliability - demandValue sf lf ef sj)) ∧
      prod2.orders.get? sj = some 0) := by
  constructor
  · obtain ⟨product', hpf, -, hslot⟩ := nextTurn_product_spec h hp
    obtain ⟨sup, inv, ord, hsup, hinv, hord, hinv', hord'⟩ := hslot si hsi
    exact ⟨sup, inv, ord, product', hsup, hinv, hord, hpf, hinv', hord'⟩
  · intro r2 sf lf ef pj sj prod1 prod2 player player' sup inv ord hstep
      hsup2 hinv2 hord2
    obtain ⟨supA, invA, ordA, hsup, hinv, hord, dm, ni, rev, hc, sp, oc, hd,
      hni, hrev, hhc, hsp, hoc, hdh, hinvA, hordA, hidA, hnameA, hlcA, hsupA,
      hb, hrevP, hexpP, hhcP, hspP, hocP, hscP, hrdP, hfacP, hcapP, hfxP⟩ :=
      processOnePlayer_spec hstep
    obtain rfl : supA = sup := Option.some.inj (hsup.symm.trans hsup2)
    obtain rfl : invA = inv := Option.some.inj (hinv.symm.trans hinv2)
    obtain rfl : ordA = ord := Option.some.inj (hord.symm.trans hord2)
    subst hd; subst hni; subst hrev; subst hhc; subst hsp; subst hoc
    obtain ⟨hjlt, -⟩ := List.get?_eq_some.mp hinv
    obtain ⟨hjlt2, -⟩ := List.get?_eq_some.mp hord
    refine ⟨?_, hrevP, hhcP, hspP, hocP, ?_, ?_⟩
    · rw [hb]
    · rw [hinvA]; exact List.get?_set_eq_of_lt _ hjlt
    · rw [hordA]; exact List.get?_set_eq_of_lt _ hjlt2

/-- C1 witness: the theorem applied to the initial state after ordering 10
units of product 1. -/
theorem C1_witness :
    ∃ st' product,
      nextTurn 1 r0 (handleOrderChange 0 1 10 initialGameState) = some st' ∧
      (handleOrderChange 0 1 10 initialGameState).products.get? 0 =
        some product ∧
      (0 : ℕ) < (handleOrderChange 0 1 10 initialGameState).players.length ∧
      (∃ sup inv ord product',
        suppliers.find? (fun s => s.id == product.supplier) = some sup ∧
        product.inventory.get? 0 = some inv ∧
        product.orders.get? 0 = some ord ∧
        st'.products.get? 0 = some product' ∧
        product'.inventory.get? 0 =
          some (max 0 (inv + ord * sup.reliability -
            demandValue ((handleOrderChange 0 1 10
                initialGameState).seasonalFactors
                (seasonFor ((handleOrderChange 0 1 10
                  initialGameState).turn + 1)))
              (lifecycleFactor product.lifecycle) (envFactor r0.envEvent) 0)) ∧
        product'.orders.get? 0 = some 0) := by
  refine ⟨_, _, rfl, rfl, by decide, ?_⟩
  exact (C1_step_formulas 1 r0 (handleOrderChange 0 1 10 initialGameState) _
    rfl 0 0 _ rfl (by decide)).1

/-- C7 (amended): after `advanceTurn` every player-slot entry of every
product's inventory is non-negative (it is a rational, not necessarily an
integer). -/
theorem C7_inventory_nonneg (d : ℚ) (r : TurnRand) (st st' : GameState)
    (h : nextTurn d r st = some st') (pi si : ℕ) (product' : Product)
    (hp' : st'.products.get? pi = some product')
    (hsi : si < st.players.length) (v : ℚ)
    (hv : product'.inventory.get? si = some v) : 0 ≤ v := by
  obtain ⟨product, hp⟩ : ∃ p, st.products.get? pi = some p := by
    cases hx : st.products.get? pi with
    | some p => exact ⟨p, rfl⟩
    | none =>
      exfalso
      obtain ⟨prods, players1, ai, players2, hloop, -, -, -, -, hprod, -, -,
        -, -⟩ := nextTurn_spec h
      obtain ⟨hplen, -⟩ := productsLoop_spec hloop
      obtain ⟨hlt, -⟩ := List.get?_eq_some.mp hp'
      rw [hprod] at hlt
      have hge := List.get?_eq_none.mp hx
      simp only [List.length_nil] at hplen
      omega
  obtain ⟨product'', hpf, -, hslot⟩ := nextTurn_product_spec h hp
  obtain rfl : product'' = product' := Option.some.inj (hpf.symm.trans hp')
  obtain ⟨sup, inv, ord, -, -, -, hinv', -⟩ := hslot si hsi
  have hveq : v = max 0 (inv + ord * sup.reliability -
      demandValue (st.seasonalFactors (seasonFor (st.turn + 1)))
        (lifecycleFactor product.lifecycle) (envFactor r.envEvent) si) :=
    Option.some.inj (hv.symm.trans hinv')
  rw [hveq]
  exact le_max_left 0 _

/-- C7 witness: the amended theorem applied after ordering 10 units. -/
theorem C7_witness :
    ∃ st' product' v,
      nextTurn 1 r0 (handleOrderChange 0 1 10 initialGameState) = some st' ∧
      st'.products.get? 0 = some product' ∧
      product'.inventory.get? 0 = some v ∧ 0 ≤ v := by
  refine ⟨_, _, _, rfl, rfl, rfl, ?_⟩
  exact C7_inventory_nonneg 1 r0 (handleOrderChange 0 1 10 initialGameState) _
    rfl 0 0 _ rfl (by decide) _ rfl

/-- C7 counterexample: with a pending order of 10 at supplier reliability
0.95, the post-turn inventory is 81/2, which is not an integer, refuting
the claim's "non-negative integer". -/
theorem C7_counterexample :
    ((nextTurn 1 r0 (handleOrderChange 0 1 10 initialGameState)).bind
      fun st' => (st'.products.get? 0).bind
        fun p => p.inventory.get? 0) = some (81/2 : ℚ) ∧
    ∀ n : ℤ, (n : ℚ) ≠ (81/2 : ℚ) := by
  constructor
  · with_unfolding_all rfl
  · intro n hn
    have h1 : ((n : ℚ)).den = 1 := Rat.den_intCast n
    rw [hn] at h1
    have h2 : ((81/2 : ℚ)).den = 2 := by with_unfolding_all rfl
    rw [h2] at h1
    exact absurd h1 (by decide)

/-- C8 (amended): one `advanceTurn` appends exactly `players.length`
entries (one per player slot, not one per turn) to each product's
demandHistory, and the entries present before the call survive unchanged
as a prefix. -/
theorem C8_history_append (d : ℚ) (r : TurnRand) (st st' : GameState)
    (h : nextTurn d r st = some st') (pi : ℕ) (product : Product)
    (hp : st.products.get? pi = some product) :
    ∃ product' tail,
      st'.products.get? pi = some product' ∧
      product'.demandHistory = product.demandHistory ++ tail ∧
      tail.length = st.players.length := by
  obtain ⟨product', hpf, ⟨tail, hdh, htl⟩, -⟩ := nextTurn_product_spec h hp
  exact ⟨product', tail, hpf, hdh, htl⟩

/-- C8 witness: the amended theorem applied to the two-player state. -/
theorem C8_witness :
    ∃ product0 st' product' tail,
      stC2.products.get? 0 = some product0 ∧
      nextTurn 1 r0 stC2 = some st' ∧
      st'.products.get? 0 = some product' ∧
      product'.demandHistory = product0.demandHistory ++ tail ∧
      tail.length = stC2.players.length := by
  obtain ⟨hsome, hrest⟩ : ∃ st', nextTurn 1 r0 stC2 = some st' :=
    ⟨_, by with_unfolding_all rfl⟩
  obtain ⟨product', tail, hpf, hdh, htl⟩ :=
    C8_history_append 1 r0 stC2 hsome hrest 0 _ rfl
  exact ⟨_, hsome, product', tail, rfl, hrest, hpf, hdh, htl⟩

/-- C8 counterexample: with two players, one `advanceTurn` appends two
entries to the product's demandHistory, not exactly one. -/
theorem C8_counterexample :
    ((nextTurn 1 r0 stC2).bind fun st' => (st'.products.get? 0).map
      fun p => p.demandHistory.length) = some 2 ∧
    stC2.players.length = 2 ∧
    stC2.products.map (fun p => p.demandHistory.length) = [0] ∧
    (2 : ℕ) ≠ 0 + 1 :=
  ⟨by with_unfolding_all rfl, rfl, rfl, by decide⟩

/-- C2 (amended): after `advanceTurn` every player's budget is at most
2000 provided the trade queue was empty, every pending investment amount
was non-negative, and there was at least one product.  (The original
claim fails: a settled trade offer can push the recipient's budget above
the ceiling, see the counterexample; the per-step `min(·, 2000)` cap is
only applied inside the product loop.) -/
theorem C2_budget_ceiling (d : ℚ) (r : TurnRand) (st st' : GameState)
    (h : nextTurn d r st = some st') (htrade : st.tradeOffers = [])
    (hprodne : st.products ≠ [])
    (hinvnn : ∀ p ∈ st.players, 0 ≤ p.rdInvestment ∧
      0 ≤ p.facilityInvestment) :
    ∀ q ∈ st'.players, q.budget ≤ 2000 := by
  obtain ⟨prods, players1, ai, players2, hloop, htr, -, -, -, -, hpl, -, -, -⟩ :=
    nextTurn_spec h
  obtain ⟨-, -, -, hf₂, -, hbud, -⟩ := productsLoop_spec hloop
  have hbud1 : ∀ q ∈ players1, q.budget ≤ 2000 := hbud hprodne
  have hinv1 : ∀ q ∈ players1, 0 ≤ q.rdInvestment ∧
      0 ≤ q.facilityInvestment := by
    intro q hq
    obtain ⟨p, hp, hpq⟩ := forall₂_right_mem hf₂ q hq
    obtain ⟨hrd, hfac, -, -, -⟩ := hpq
    rw [hrd, hfac]
    exact hinvnn p hp
  rw [htrade] at htr
  have htr' : players1.map applyInvestments = players2 := by
    simpa [settleTrades] using htr
  intro q hq
  rw [hpl, ← htr'] at hq
  obtain ⟨q1, hq1, rfl⟩ := List.mem_map.mp hq
  have h1 := hbud1 q1 hq1
  obtain ⟨h2, h3⟩ := hinv1 q1 hq1
  show (applyInvestments q1).budget ≤ 2000
  simp only [applyInvestments]
  linarith

/-- C2 witness: the amended theorem applied to the initial state. -/
theorem C2_witness :
    ∃ st', nextTurn 1 r0 initialGameState = some st' ∧
      ∀ q ∈ st'.players, q.budget ≤ 2000 := by
  obtain ⟨st', hst⟩ : ∃ st', nextTurn 1 r0 initialGameState = some st' :=
    ⟨_, by with_unfolding_all rfl⟩
  refine ⟨st', hst, C2_budget_ceiling 1 r0 _ _ hst rfl
    (by simp [initialGameState]) ?_⟩
  simp [initialGameState, defaultPlayer]

/-- C2 counterexample: in the two-player state with both budgets at the
cap and a queued transfer of 100, recipient slot 1 ends the turn with
budget 2100 > 2000, refuting the unconditional ceiling. -/
theorem C2_counterexample :
    ((nextTurn 1 r0 stC2).bind fun st' =>
      (st'.players.get? 1).map Player.budget) = some 2100 ∧
    ¬ ((2100 : ℚ) ≤ 2000) := by
  constructor
  · with_unfolding_all rfl
  · norm_num

/-- C3: trade settlement processes the queue in submission order (first
conjunct: settling a non-empty queue settles its head first and proceeds
with the updated player list); a covered offer moves exactly `amount`
from the payer to the recipient (debit applied before the recipient is
read, so self-trades alias correctly); an uncovered offer leaves the
player list entirely unchanged; and after any successful `advanceTurn`
the trade queue is empty. -/
theorem C3_trade_settlement :
    (∀ (players : List Player) (offer : TradeOffer)
      (rest : List TradeOffer),
      settleTrades players (offer :: rest) =
        (settleOffer players offer).bind fun ps => settleTrades ps rest) ∧
    (∀ (players : List Player) (offer : TradeOffer) (payer : Player),
      players.get? offer.fromIdx = some payer →
      (offer.amount ≤ payer.budget →
        ∀ recipient,
          (players.set offer.fromIdx
            { payer with budget := payer.budget - offer.amount }).get?
              offer.toIdx = some recipient →
          settleOffer players offer =
            some ((players.set offer.fromIdx
              { payer with budget := payer.budget - offer.amount }).set
                offer.toIdx
                { recipient with
                  budget := recipient.budget + offer.amount })) ∧
      (¬ offer.amount ≤ payer.budget →
        settleOffer players offer = some players)) ∧
    (∀ (d : ℚ) (r : TurnRand) (st st' : GameState),
      nextTurn d r st = some st' → st'.tradeOffers = []) := by
  refine ⟨fun players offer rest => rfl, ?_, ?_⟩
  · intro players offer payer hpayer
    constructor
    · intro hc recipient hrec
      unfold settleOffer
      rw [hpayer]
      simp only [Option.bind_eq_bind, Option.some_bind]
      rw [if_pos hc, hrec]
      simp only [Option.bind_eq_bind, Option.some_bind]
      rfl
    · intro hc
      unfold settleOffer
      rw [hpayer]
      simp only [Option.bind_eq_bind, Option.some_bind]
      rw [if_neg hc]
      rfl
  · intro d r st st' h
    obtain ⟨prods, players1, ai, players2, -, -, -, -, -, -, -, -, -, hto⟩ :=
      nextTurn_spec h
    exact hto

/-- C3 witness: an uncovered offer (amount 200 against budget 100) is
dropped with the player list unchanged, and a full turn on the
three-player trade state ends with an empty queue. -/
theorem C3_witness :
    ∃ st' payer,
      nextTurn 1 r0 st10 = some st' ∧ st'.tradeOffers = [] ∧
      st10.players.get? 0 = some payer ∧
      ¬ ((⟨0, 1, 200⟩ : TradeOffer).amount ≤ payer.budget) ∧
      settleOffer st10.players ⟨0, 1, 200⟩ = some st10.players := by
  obtain ⟨st', hst⟩ : ∃ st', nextTurn 1 r0 st10 = some st' :=
    ⟨_, by with_unfolding_all rfl⟩
  have hne : ¬ ((⟨0, 1, 200⟩ : TradeOffer).amount ≤
      ({ defaultPlayer with budget := 100 } : Player).budget) := by
    show ¬ (200 : ℚ) ≤ 100
    norm_num
  refine ⟨st', _, hst, (C3_trade_settlement.2.2 1 r0 st10 st' hst), rfl,
    hne, ?_⟩
  exact (C3_trade_settlement.2.1 st10.players ⟨0, 1, 200⟩ _ rfl).2 hne

/-- C10: the feasibility test of trade settlement uses the running budget
within the single settlement pass.  Concretely: in `st10` the second
queued offer asks 50 from player 1 whose pre-settlement budget is 0, yet
after `advanceTurn` the final budgets are [0, 50, 50] — the offer
succeeded because the first queued offer transferred 100 to player 1
first, so settlement outcome depends on queue order. -/
theorem C10_running_budget :
    ((st10.players.get? 1).map Player.budget = some 0) ∧
    ((st10.tradeOffers.get? 1).map TradeOffer.amount = some 50) ∧
    ¬ ((50 : ℚ) ≤ 0) ∧
    ((nextTurn 1 r0 st10).map fun st' => st'.players.map Player.budget) =
      some [0, 50, 50] := by
  refine ⟨rfl, rfl, by norm_num, by with_unfolding_all rfl⟩

theorem averageDemand_eq_histMean (l : List ℚ) :
    (if 0 < l.length then l.sum / (l.length : ℚ) else (l.getLast?).getD 0) =
    histMean l := by
  cases l with
  | nil => simp [histMean]
  | cons a t => simp [histMean]

theorem aiStrategy_eq (st : GameState) (pid : ℤ) (d : ℚ)
    (product : Product)
    (hfind : st.products.find? (fun p => p.id == pid) = some product)
    (inv0 : ℚ) (hinv0 : product.inventory.get? 0 = some inv0)
    (player0 : Player) (hplayer0 : st.players.get? 0 = some player0) :
    aiStrategy st pid d =
      some (jsRound (min (max 0 (histMean product.demandHistory *
          st.seasonalFactors st.currentSeason *
          (1 + lifecycleFactor product.lifecycle) * (1 + 0.2 * d) - inv0))
        (min player0.productionCapacity
          ((⌊player0.budget / 10⌋ : ℤ) : ℚ)))) := by
  unfold aiStrategy
  rw [hfind]
  simp only [Option.bind_eq_bind, Option.some_bind]
  rw [hinv0]
  simp only [Option.some_bind]
  rw [hplayer0]
  simp only [Option.some_bind]
  rw [averageDemand_eq_histMean]
  rfl

/-- C5 (amended): in a state with a non-empty player list and non-empty
per-product inventories, `aiStrategy` fails (with the source's NotFound
throw, modelled as `none`) iff the product identity does not occur, and
otherwise returns the rounded order
`min(max(0, forecast × (1 + 0.2 × difficulty) − slot-0 inventory),
slot-0 productionCapacity, floor(slot-0 budget / 10))` where the forecast
is `mean(demandHistory)` (0 for an empty history) times the seasonal
factor times `(1 + growth − decline)`.  The original claim's word
"non-negative" is dropped: the result is negative whenever
`floor(budget/10)` is (see the counterexample). -/
theorem C5_aiStrategy_characterization (st : GameState) (pid : ℤ) (d : ℚ)
    (hplayers : st.players ≠ [])
    (hinvne : ∀ p ∈ st.products, p.inventory ≠ []) :
    (aiStrategy st pid d = none ↔
      st.products.find? (fun p => p.id == pid) = none) ∧
    (∀ product, st.products.find? (fun p => p.id == pid) = some product →
      ∀ inv0, product.inventory.get? 0 = some inv0 →
      ∀ player0, st.players.get? 0 = some player0 →
      aiStrategy st pid d =
        some (jsRound (min (max 0 (histMean product.demandHistory *
            st.seasonalFactors st.currentSeason *
            (1 + lifecycleFactor product.lifecycle) * (1 + 0.2 * d) - inv0))
          (min player0.productionCapacity
            ((⌊player0.budget / 10⌋ : ℤ) : ℚ))))) := by
  constructor
  · constructor
    · intro hnone
      cases hfind : st.products.find? (fun p => p.id == pid) with
      | none => rfl
      | some product =>
        exfalso
        have hmem := List.mem_of_find?_eq_some hfind
        have hinvp := hinvne product hmem
        obtain ⟨inv0, hinv0⟩ : ∃ x, product.inventory.get? 0 = some x := by
          cases hx : product.inventory with
          | nil => exact absurd hx hinvp
          | cons a t => exact ⟨a, rfl⟩
        obtain ⟨player0, hplayer0⟩ : ∃ x, st.players.get? 0 = some x := by
          cases hy : st.players with
          | nil => exact absurd hy hplayers
          | cons a t => exact ⟨a, rfl⟩
        rw [aiStrategy_eq st pid d product hfind inv0 hinv0 player0
          hplayer0] at hnone
        exact Option.some_ne_none _ hnone
    · intro hfind
      unfold aiStrategy
      rw [hfind]
      rfl
  · intro product hfind inv0 hinv0 player0 hplayer0
    exact aiStrategy_eq st pid d product hfind inv0 hinv0 player0 hplayer0

/-- C5 witness: the amended characterization applied to the initial
state (empty history, inventory 50, budget 1000, capacity 100). -/
theorem C5_witness :
    ∃ product player0 inv0,
      initialGameState.products.find? (fun p => p.id == (1 : ℤ)) =
        some product ∧
      product.inventory.get? 0 = some inv0 ∧
      initialGameState.players.get? 0 = some player0 ∧
      aiStrategy initialGameState 1 1 =
        some (jsRound (min (max 0 (histMean product.demandHistory *
            initialGameState.seasonalFactors
              initialGameState.currentSeason *
            (1 + lifecycleFactor product.lifecycle) * (1 + 0.2 * 1) - inv0))
          (min player0.productionCapacity
            ((⌊player0.budget / 10⌋ : ℤ) : ℚ)))) := by
  refine ⟨_, _, _, rfl, rfl, rfl, ?_⟩
  exact (C5_aiStrategy_characterization initialGameState 1 1
    (by simp [initialGameState])
    (by simp [initialGameState])).2 _ rfl _ rfl _ rfl

/-- C5 counterexample: with slot-0 budget −100 the returned order is −10,
refuting the claim's "non-negative integer". -/
theorem C5_counterexample :
    aiStrategy st5 1 1 = some (-10) ∧ (-10 : ℤ) < 0 := by
  constructor
  · with_unfolding_all rfl
  · decide

/-- C9 (amended): the market conversion is
`round(baseline × exchangeRate × transportCost)`; the home country (USA)
has both multipliers equal to 1; all three non-home transport-cost
multipliers exceed 1 and are pairwise distinct; the non-home
exchange-rate multipliers are pairwise distinct, Japan's and China's
exceed 1, but the EU's is 0.9 < 1 — so "exchange-rate multiplier > 1 for
each non-home country" fails. -/
theorem C9_market_tables :
    (∀ (b : ℚ) (c : Country), simulateGlobalMarket b c =
      jsRound (b * exchangeRates c * transportCosts c)) ∧
    exchangeRates .USA = 1 ∧ transportCosts .USA = 1 ∧
    (1 < transportCosts .Japan ∧ 1 < transportCosts .EU ∧
      1 < transportCosts .China) ∧
    (transportCosts .Japan ≠ transportCosts .EU ∧
      transportCosts .Japan ≠ transportCosts .China ∧
      transportCosts .EU ≠ transportCosts .China) ∧
    (1 < exchangeRates .Japan ∧ 1 < exchangeRates .China ∧
      exchangeRates .EU = 0.9 ∧ exchangeRates .EU < 1) ∧
    (exchangeRates .Japan ≠ exchangeRates .EU ∧
      exchangeRates .Japan ≠ exchangeRates .China ∧
      exchangeRates .EU ≠ exchangeRates .China) := by
  refine ⟨fun b c => rfl, rfl, rfl, ?_, ?_, ?_, ?_⟩ <;>
    norm_num [exchangeRates, transportCosts]

/-- C9 counterexample: the EU exchange-rate multiplier is 0.9, which is
not strictly greater than 1, refuting the original table claim. -/
theorem C9_counterexample :
    exchangeRates Country.EU = 0.9 ∧ ¬ (1 < exchangeRates Country.EU) := by
  constructor
  · rfl
  · norm_num [exchangeRates]

theorem aiShadow_spec {gs : GameState} {product : Product} {d v : ℚ}
    (h : aiShadow gs product d = some v) :
    ∃ aiOrder lastDemand inv0,
      aiStrategy gs product.id d = some aiOrder ∧
      product.demandHistory.getLast? = some lastDemand ∧
      product.inventory.get? 0 = some inv0 ∧
      v = min lastDemand inv0 * 20 -
        max 0 (inv0 + (aiOrder : ℚ) - lastDemand) * 0.5 -
        max 0 (lastDemand - inv0) * 2 - (aiOrder : ℚ) * 10 := by
  simp only [aiShadow, Option.bind_eq_bind, Option.bind_eq_some,
    Option.pure_def, Option.some.injEq] at h
  obtain ⟨aiOrder, h1, lastDemand, h2, inv0, h3, h4⟩ := h
  exact ⟨aiOrder, lastDemand, inv0, h1, h2, h3, h4.symm⟩

/-- C6 (amended): for each product, the amount added to `aiScore` is
`min(lastDemand, inv0) × 20 − aiInventory × 0.5 − max(0, lastDemand −
inv0) × 2 − aiOrder × 10`, where `inv0` is slot 0's inventory AFTER the
player updates of the same turn, `lastDemand` is the most recently pushed
demand entry (the last player slot's demand), and — unlike steps (d)-(e)
of the player resolution — NO supplier quality multiplier is applied to
the AI revenue and NO supplier cost multiplier to the AI order cost.  The
player list is handed to the rest of the loop exactly as the player
resolution produced it, so the AI computation mutates no player state. -/
theorem C6_ai_shadow (r : TurnRand) (d : ℚ) (t : ℕ) (cs : Season)
    (sf : Season → ℚ) (ee : Option EnvironmentalEvent)
    (tos : List TradeOffer) (pi : ℕ) (done : List Product)
    (product : Product) (rest : List Product) (players : List Player)
    (ai : ℚ) (out : List Product × List Player × ℚ)
    (h : productsLoop r d t cs sf ee tos pi done (product :: rest) players
      ai = some out) :
    ∃ product1 players1 product2 aiOrder lastDemand inv0 v,
      playersLoop r (sf cs) (lifecycleFactor product.lifecycle)
        (envFactor ee) pi 0 product players = some (product1, players1) ∧
      product2 = (if r.lifecycleAdv pi
        then { product1 with lifecycle := advanceLifecycle product1.lifecycle }
        else product1) ∧
      aiStrategy ⟨t, cs, sf, done ++ product2 :: rest, players1, ai, ee, tos⟩
        product2.id d = some aiOrder ∧
      product2.demandHistory.getLast? = some lastDemand ∧
      product2.inventory.get? 0 = some inv0 ∧
      v = min lastDemand inv0 * 20 -
        max 0 (inv0 + (aiOrder : ℚ) - lastDemand) * 0.5 -
        max 0 (lastDemand - inv0) * 2 - (aiOrder : ℚ) * 10 ∧
      productsLoop r d t cs sf ee tos (pi + 1) (done ++ [product2]) rest
        players1 (ai + v) = some out := by
  simp only [productsLoop, Option.bind_eq_bind, Option.bind_eq_some] at h
  obtain ⟨⟨product1, players1⟩, hpl, aiD, hshadow, hrec⟩ := h
  obtain ⟨aiOrder, lastDemand, inv0, hstrat, hlast, hinv0, hval⟩ :=
    aiShadow_spec hshadow
  exact ⟨product1, players1, _, aiOrder, lastDemand, inv0, aiD, hpl, rfl,
    hstrat, hlast, hinv0, hval, hrec⟩

/-- C6 witness: the amended theorem applied to the single-product,
single-player state. -/
theorem C6_witness :
    ∃ out,
      productsLoop r0 1 2 (seasonFor 2) initialSeasonalFactors none [] 0 []
        ((⟨1, "製品A", [50], [], [0], .introduction, 1⟩ : Product) :: [])
        [defaultPlayer] 0 = some out ∧
      ∃ product1 players1 product2 aiOrder lastDemand inv0 v,
        playersLoop r0 (initialSeasonalFactors (seasonFor 2))
          (lifecycleFactor Lifecycle.introduction) (envFactor none) 0 0
          ⟨1, "製品A", [50], [], [0], .introduction, 1⟩ [defaultPlayer] =
          some (product1, players1) ∧
        product2 = (if r0.lifecycleAdv 0
          then { product1 with
            lifecycle := advanceLifecycle product1.lifecycle }
          else product1) ∧
        aiStrategy ⟨2, seasonFor 2, initialSeasonalFactors,
          [] ++ product2 :: [], players1, 0, none, []⟩ product2.id 1 =
          some aiOrder ∧
        product2.demandHistory.getLast? = some lastDemand ∧
        product2.inventory.get? 0 = some inv0 ∧
        v = min lastDemand inv0 * 20 -
          max 0 (inv0 + (aiOrder : ℚ) - lastDemand) * 0.5 -
          max 0 (lastDemand - inv0) * 2 - (aiOrder : ℚ) * 10 ∧
        productsLoop r0 1 2 (seasonFor 2) initialSeasonalFactors none []
          1 ([] ++ [product2]) [] players1 (0 + v) = some out := by
  obtain ⟨out, hout⟩ : ∃ out,
      productsLoop r0 1 2 (seasonFor 2) initialSeasonalFactors none [] 0 []
        ((⟨1, "製品A", [50], [], [0], .introduction, 1⟩ : Product) :: [])
        [defaultPlayer] 0 = some out :=
    ⟨_, by with_unfolding_all rfl⟩
  exact ⟨out, hout, C6_ai_shadow r0 1 2 (seasonFor 2)
    initialSeasonalFactors none [] 0 [] _ [] [defaultPlayer] 0 out hout⟩

/-- C6 counterexample: on `st6` the turn adds 374 to `aiScore`, but the
claim's formula — steps (c)-(e) with the supplier quality multiplier
(0.9) on revenue and the cost multiplier (1.1) on order cost, applied to
slot 0's pre-turn inventory (50) and realized demand (19), with AI order
0 — yields 326.5 ≠ 374. -/
theorem C6_counterexample :
    ((nextTurn 1 r0 st6).map GameState.aiScore) = some 374 ∧
    ((nextTurn 1 r0 st6).bind fun st' => (st'.products.get? 0).bind
      fun p => p.demandHistory.get? 0) = some 19 ∧
    ((st6.products.get? 0).bind fun p => p.inventory.get? 0) = some 50 ∧
    st6.aiScore = 0 ∧
    (374 : ℚ) ≠ min 19 50 * 20 * (0.9 : ℚ) -
      max 0 (50 + 0 * (0.95 : ℚ) - 19) * 0.5 -
      max 0 ((19 : ℚ) - 50) * 2 - 0 * 10 * (1.1 : ℚ) := by
  refine ⟨by with_unfolding_all rfl, by with_unfolding_all rfl, rfl, rfl, ?_⟩
  rw [min_def, max_def, max_def]
  norm_num

theorem forall₂_append {α β : Type} {R : α → β → Prop} :
    ∀ {l₁ : List α} {l₂ : List β} {l₃ : List α} {l₄ : List β},
    List.Forall₂ R l₁ l₂ → List.Forall₂ R l₃ l₄ →
    List.Forall₂ R (l₁ ++ l₃) (l₂ ++ l₄) := by
  intro l₁ l₂ l₃ l₄ h1 h2
  induction h1 with
  | nil => exact h2
  | cons hr _ ih => exact List.Forall₂.cons hr ih

theorem forall₂_replicate {α β : Type} {R : α → β → Prop} {x : α} {y : β}
    (hxy : R x y) : ∀ n, List.Forall₂ R (List.replicate n x)
      (List.replicate n y) := by
  intro n
  induction n with
  | zero => exact List.Forall₂.nil
  | succ n ih => exact List.Forall₂.cons hxy ih

theorem forall₂_take {α β : Type} {R : α → β → Prop} :
    ∀ {l₁ : List α} {l₂ : List β}, List.Forall₂ R l₁ l₂ →
    ∀ n, List.Forall₂ R (l₁.take n) (l₂.take n) := by
  intro l₁ l₂ h
  induction h with
  | nil => intro n; simp
  | cons hr _ ih =>
    intro n
    cases n with
    | zero => exact List.Forall₂.nil
    | succ n => exact List.Forall₂.cons hr (ih n)

theorem forall₂_mapIdx_of {α : Type} {R : α → ℚ → Prop} :
    ∀ {l : List α} {a : List ℚ}, List.Forall₂ R l a →
    ∀ (f : ℕ → α → α), (∀ i p b, R p b → R (f i p) b) →
    List.Forall₂ R (l.mapIdx f) a := by
  intro l a h
  induction h with
  | nil => intro f _; exact List.Forall₂.nil
  | cons hr _ ih =>
    intro f hf
    rw [List.mapIdx_cons]
    exact List.Forall₂.cons (hf 0 _ _ hr)
      (ih (fun i => f (i + 1)) (fun i p b hpb => hf (i + 1) p b hpb))

theorem ledger_step {p q s : Player} {b : ℚ} (hpa : LedgerOk p b)
    (hpq : LoopDelta p q) (hqs : BudgetOnly (applyInvestments q) s) :
    LedgerOk s (b + p.rdInvestment + p.facilityInvestment) := by
  obtain ⟨h1, h2⟩ := hpa
  obtain ⟨hrd, hfac, hcap, hsc, hex⟩ := hpq
  unfold BudgetOnly at hqs
  have hsc2 : s.score = q.score := by rw [hqs]; rfl
  have hrev2 : s.revenue = q.revenue := by rw [hqs]; rfl
  have hh2 : s.holdingCost = q.holdingCost := by rw [hqs]; rfl
  have hst2 : s.stockoutPenalty = q.stockoutPenalty := by rw [hqs]; rfl
  have ho2 : s.orderCost = q.orderCost := by rw [hqs]; rfl
  have hexp2 : s.expenses = q.expenses +
      (q.rdInvestment + q.facilityInvestment) := by rw [hqs]; rfl
  constructor
  · rw [hsc2, hrev2, hh2, hst2, ho2]
    linarith
  · rw [hexp2, hh2, hst2, ho2, hrd, hfac]
    linarith

theorem ledger_chain : ∀ {ps : List Player} {a : List ℚ}
    {qs rs : List Player},
    List.Forall₂ LedgerOk ps a → List.Forall₂ LoopDelta ps qs →
    List.Forall₂ BudgetOnly (qs.map applyInvestments) rs →
    List.Forall₂ LedgerOk rs
      (List.zipWith (fun ai p => ai + p.rdInvestment + p.facilityInvestment)
        a ps) := by
  intro ps
  induction ps with
  | nil =>
    intro a qs rs h1 h2 h3
    cases h1; cases h2
    cases h3
    exact List.Forall₂.nil
  | cons p pst ih =>
    intro a qs rs h1 h2 h3
    cases h1 with
    | cons hpa h1t =>
      cases h2 with
      | cons hpq h2t =>
        rw [List.map_cons] at h3
        cases h3 with
        | cons hqr h3t =>
          exact List.Forall₂.cons (ledger_step hpa hpq hqr) (ih h1t h2t h3t)

/-- C4: FinancialLedger invariant.  `Reach st a` says `st` is reachable
from the initial state by any sequence of decision commands and turn
advances, with `a` the ghost list of per-player investment totals applied
so far.  For every player of every reachable state, the score equals the
revenue accumulator minus the holdingCost, stockoutPenalty and orderCost
accumulators, and the expenses equal those three accumulators plus all
R&D and facility investments applied so far. -/
theorem C4_ledger_invariant (st : GameState) (a : List ℚ)
    (h : Reach st a) : List.Forall₂ LedgerOk st.players a := by
  induction h with
  | init =>
    refine List.Forall₂.cons ⟨?_, ?_⟩ List.Forall₂.nil <;>
      norm_num [defaultPlayer]
  | cmd c hr ih =>
    cases c with
    | orderChange playerId productId value => exact ih
    | supplierChange playerId productId supplierId => exact ih
    | tradeOffer fromIdx toIdx => exact ih
    | investmentChange playerId isRd value =>
      show List.Forall₂ LedgerOk
        (handleInvestmentChange playerId isRd value _).players _
      unfold handleInvestmentChange
      refine forall₂_mapIdx_of ih _ ?_
      intro i p b hpb
      by_cases hip : i = playerId
      · rw [if_pos hip]
        cases isRd with
        | true => exact hpb
        | false => exact hpb
      · rw [if_neg hip]; exact hpb
    | resize playerCount =>
      rename_i stp ap
      show List.Forall₂ LedgerOk (resizePlayers playerCount stp).players
        (appliedAfterCmd (.resize playerCount) stp ap)
      have hdef : LedgerOk defaultPlayer 0 := by
        constructor <;> norm_num [defaultPlayer]
      by_cases h1 : stp.players.length < playerCount
      · simp only [resizePlayers, appliedAfterCmd, h1, if_true]
        exact forall₂_append ih (forall₂_replicate hdef _)
      · by_cases h2 : playerCount < stp.players.length
        · simp only [resizePlayers, appliedAfterCmd, h1, h2, if_true,
            if_false]
          exact forall₂_take ih playerCount
        · simp only [resizePlayers, appliedAfterCmd, h1, h2, if_false]
          exact ih
  | turn difficulty r hr hnext ih =>
    rename_i st st' a
    obtain ⟨prods, players1, ai, players2, hloop, htr, -, -, -, -, hpl, -, -,
      -⟩ := nextTurn_spec hnext
    obtain ⟨-, -, -, hf₂, -, -, -⟩ := productsLoop_spec hloop
    have hbo := settleTrades_budgetOnly htr
    rw [hpl]
    exact ledger_chain ih hf₂ hbo

/-- C4 witness: the invariant instantiated at the initial state. -/
theorem C4_witness : List.Forall₂ LedgerOk initialGameState.players [0] :=
  C4_ledger_invariant initialGameState [0] Reach.init

end ScmGame
